import Mathlib

/-!
Verification of the `proxy_wasm_async_runtime` concurrency substrate.

This file shallowly embeds the runtime's coordination primitives from the
Rust sources (`src/runtime/lock.rs`, `src/runtime/mod.rs`,
`src/runtime/kv_store.rs`, `src/runtime/counter_bucket.rs`) and proves the
spec's testable properties about them.

Host interaction model: every hostcall (`get_shared_data`,
`set_shared_data`, `enqueue_shared_queue`) is modelled against an explicit
`Host` record.  The record carries the slot contents (already decoded: the
serde round trip is modelled as the identity on well-formed stores) plus
oracle fields (`getFail`, `setFail`, `enqFail`) fixing the outcome the host
environment produces for the next call of each kind; this is how opaque
host-status failures and cross-instance version mismatches are injected
into a single sequential run.  Cross-instance interleavings themselves are
modelled separately as a labelled transition system (`LockSys`).
-/

namespace PWRuntime

/-- Wakers are identified by an opaque id (`std::task::Waker` values). -/
abbrev Waker := Nat

/-- `std::task::Poll` outcome of a future's `poll`. -/
inductive PollOut (α : Type) where
  | ready (a : α)
  | pending
deriving DecidableEq, Repr

/-- `proxy_wasm::types::Status`: opaque host status codes.  Only the
codes the embedded functions inspect are distinguished; all others are
collapsed into `other`. -/
inductive Status where
  | badArgument
  | empty
  | casMismatch
  | internalFailure
  | other (n : Nat)
deriving DecidableEq, Repr

namespace Lock

/-- `StoreState` from `src/runtime/lock.rs`: the lock tag persisted next to
the protected data. -/
inductive StoreState where
  | unlocked
  | locked (holder : Nat) (time : Nat) (cas : Nat)
deriving DecidableEq, Repr

/-- `Store<T>` from `src/runtime/lock.rs`: persisted value plus lock tag. -/
structure Store (S : Type) where
  state : StoreState
  data : S
deriving DecidableEq, Repr

/-- `Store::new`: a fresh store is `Unlocked`. -/
def Store.new {S : Type} (data : S) : Store S :=
  { state := .unlocked, data := data }

/-- `Store::turn_lock`: stamp the store `Locked{holder, time, cas}`. -/
def Store.turn_lock {S : Type} (s : Store S) (holder time cas : Nat) : Store S :=
  { s with state := .locked holder time cas }

/-- `Store::turn_unlock`. -/
def Store.turn_unlock {S : Type} (s : Store S) : Store S :=
  { s with state := .unlocked }

/-- `Store::is_locked`. -/
def Store.is_locked {S : Type} (s : Store S) : Bool :=
  match s.state with
  | .locked _ _ _ => true
  | .unlocked => false

/-- `Error` from `src/runtime/lock.rs`. -/
inductive LockError where
  | status (reason : String) (st : Status)
  | casMismatch
  | locked
  | decode
deriving DecidableEq, Repr

/-- Oracle model of the host shared-data slot backing one lock (see the
module comment).  `raw`/`cas` are what `get_shared_data` reports; the
`*Fail` fields fix the environment-chosen outcome of the next hostcalls. -/
structure Host (S : Type) where
  raw : Option (Store S)
  cas : Option Nat
  getFail : Option Status
  setFail : Option Status
  enqFail : Option Status
deriving DecidableEq, Repr

/-- Effect of a successful `set_shared_data` on the slot. -/
def Host.afterSet {S : Type} (h : Host S) (v : Store S) : Host S :=
  { h with raw := some v, cas := h.cas.map (· + 1) }

/-- `get_and_lock_shared_data` from `src/runtime/lock.rs` (lines 297-335):
read the slot, fail on missing CAS or missing value, fail `Locked` if the
stored state is locked, otherwise conditionally write the `Locked` state
with the version observed at read time. -/
def get_and_lock_shared_data {S : Type} (h : Host S) (holder now : Nat) :
    Except LockError (Store S) × Host S :=
  match h.getFail with
  | some st => (.error (.status "failed to get shared data" st), h)
  | none =>
    match h.cas with
    | none => (.error (.status "missing CAS value" .badArgument), h)
    | some cas =>
      match h.raw with
      | none => (.error (.status "shared data is null" .empty), h)
      | some store =>
        if store.is_locked then
          (.error .locked, h)
        else
          let store' := store.turn_lock holder now cas
          match h.setFail with
          | none => (.ok store', h.afterSet store')
          | some .casMismatch => (.error .casMismatch, h)
          | some st => (.error (.status "failed to set shared data" st), h)

/-- Observable trace of one `set_and_unlock_shared_data` run: the write
attempted against the slot (payload and the version presented), and
whether the queue notification hostcall was issued and succeeded. -/
structure UnlockTrace (S : Type) where
  written : Option (Store S × Nat)
  notified : Bool
deriving DecidableEq, Repr

/-- `set_and_unlock_shared_data` from `src/runtime/lock.rs` (lines
337-362): if the guard's store is not `Locked`, log and return `Ok`
without writing; otherwise turn the store `Unlocked`, write it presenting
version `cas + 1`, and on success enqueue a notification on the lock's
queue.  Returns (result, host after, guard store after, trace). -/
def set_and_unlock_shared_data {S : Type} (h : Host S) (store : Store S) :
    Except LockError Unit × Host S × Store S × UnlockTrace S :=
  match store.state with
  | .unlocked => (.ok (), h, store, ⟨none, false⟩)
  | .locked _ _ cas =>
    let store' := store.turn_unlock
    match h.setFail with
    | none =>
      match h.enqFail with
      | none => (.ok (), h.afterSet store', store', ⟨some (store', cas + 1), true⟩)
      | some st =>
        (.error (.status "failed to enqueue shared queue" st),
          h.afterSet store', store', ⟨some (store', cas + 1), false⟩)
    | some .casMismatch => (.error .casMismatch, h, store', ⟨some (store', cas + 1), false⟩)
    | some st =>
      (.error (.status "failed to set shared data" st), h, store', ⟨some (store', cas + 1), false⟩)

/-- `SharedDataLockGuard`: the guard holds the owning lock's context id and
the in-memory copy of the store captured at acquisition. -/
structure Guard (S : Type) where
  ctx : Nat
  store : Store S
deriving DecidableEq, Repr

/-- `Drop for SharedDataLockGuard` (lines 180-188): releasing the guard
runs `set_and_unlock_shared_data` on the guard's store. -/
def releaseGuard {S : Type} (h : Host S) (g : Guard S) :
    Except LockError Unit × Host S × Store S × UnlockTrace S :=
  set_and_unlock_shared_data h g.store

/-- The holder recorded in a store's state, if it is locked. -/
def StoreState.holderOf : StoreState → Option Nat
  | .unlocked => none
  | .locked h _ _ => some h

/-- `SharedDataLock::initial` (lines 225-238): unconditionally write a
fresh `Unlocked` store into the slot. -/
def initial {S : Type} (h : Host S) (d : S) : Except LockError Unit × Host S :=
  match h.setFail with
  | none => (.ok (), h.afterSet (Store.new d))
  | some .casMismatch => (.error .casMismatch, h)
  | some st => (.error (.status "failed to set shared data" st), h)

/-- `QueueMap` (lines 21-49): per-queue FIFO of parked wakers. -/
def QueueMap := Nat → List Waker

/-- `QueueMap::push_task`: append the waker to the queue's deque. -/
def QueueMap.push_task (m : QueueMap) (qid : Nat) (w : Waker) : QueueMap :=
  Function.update m qid (m qid ++ [w])

/-- `QueueMap::wake_tasks`: drain the queue's deque, waking every parked
waker in FIFO order.  Returns (map after, wakers woken). -/
def QueueMap.wake_tasks (m : QueueMap) (qid : Nat) : QueueMap × List Waker :=
  (Function.update m qid [], m qid)

/-- `<TryLock as Future>::poll` (lines 259-281).  Inputs: the future's
`gone` flag, the host slot, the lock's queue content (the deque this
lock's `queue_id` indexes in the thread-local `QUEUE_MAP`), ids, and the
polling task's waker.  A panic is modelled as `.error msg`; a normal step
returns the new `gone` flag, host, queue, and the poll outcome, where a
ready guard is represented by its captured store. -/
def pollTryLock {S : Type} (gone : Bool) (h : Host S) (q : List Waker)
    (holder now : Nat) (w : Waker) :
    Except String (Bool × Host S × List Waker × PollOut (Except LockError (Store S))) :=
  if gone then
    .error "polling a resolved promise"
  else
    match get_and_lock_shared_data h holder now with
    | (.ok store, h') => .ok (true, h', q, .ready (.ok store))
    | (.error .casMismatch, h') => .ok (false, h', q ++ [w], .pending)
    | (.error .locked, h') => .ok (false, h', q ++ [w], .pending)
    | (.error e, h') => .ok (true, h', q, .ready (.error e))

end Lock

namespace LockSys

open Lock

/-- Progress of one instance's in-flight `lock()` attempt on the shared
slot.  `idle` covers both "not trying" and "parked on the notification
queue awaiting a wake"; `readDone` records that `get_shared_data` observed
an `Unlocked` store at version `cas` and the conditional `set_shared_data`
has not run yet; `holding` means the conditional write succeeded and the
`SharedDataLockGuard` is live, with `cas` the version presented at the
write (the `cas` recorded inside the guard's `Locked` state). -/
inductive Attempt (S : Type) where
  | idle
  | readDone (obs : Store S) (cas : Nat)
  | holding (cas : Nat)
deriving DecidableEq, Repr

/-- Global state of the cross-instance interleaving system: the one named
slot (decoded store plus host version) and each instance's attempt. -/
structure Sys (S : Type) where
  slot : Store S
  ver : Nat
  att : Nat → Attempt S

/-- Interleaving semantics of concurrent `lock()` / guard-release runs
against one slot.  Atomic actions are the individual hostcalls of
`get_and_lock_shared_data` and `set_and_unlock_shared_data`; between the
read and the conditional write of one instance, any other instance may
act.  The host grants a conditional write exactly when the presented
version equals the current version, and bumps the version on success. -/
inductive Step {S : Type} : Sys S → Sys S → Prop where
  | readLocked (s : Sys S) (i : Nat) :
      s.att i = .idle → s.slot.is_locked = true →
      Step s s
  | readUnlocked (s : Sys S) (i : Nat) :
      s.att i = .idle → s.slot.is_locked = false →
      Step s { s with att := Function.update s.att i (.readDone s.slot s.ver) }
  | writeSuccess (s : Sys S) (i : Nat) (obs : Store S) (c t : Nat) :
      s.att i = .readDone obs c → s.ver = c →
      Step s { slot := obs.turn_lock i t c, ver := c + 1,
               att := Function.update s.att i (.holding c) }
  | writeFail (s : Sys S) (i : Nat) (obs : Store S) (c : Nat) :
      s.att i = .readDone obs c → s.ver ≠ c →
      Step s { s with att := Function.update s.att i .idle }
  | unlockSuccess (s : Sys S) (i : Nat) (c : Nat) :
      s.att i = .holding c → s.ver = c + 1 →
      Step s { slot := s.slot.turn_unlock, ver := c + 2,
               att := Function.update s.att i .idle }
  | unlockFail (s : Sys S) (i : Nat) (c : Nat) :
      s.att i = .holding c → s.ver ≠ c + 1 →
      Step s { s with att := Function.update s.att i .idle }

/-- Initial state: the slot holds the `Unlocked` store written by
`initial()` at some host version, and no instance is attempting. -/
def init {S : Type} (d : S) (v : Nat) : Sys S :=
  { slot := Store.new d, ver := v, att := fun _ => .idle }

/-- States reachable from `init` under any interleaving. -/
def Reachable {S : Type} (d : S) (v : Nat) (s : Sys S) : Prop :=
  Relation.ReflTransGen Step (init d v) s

/-- The inductive invariant: a live guard pins the slot to `Locked` by its
holder at the next version, and a pending conditional write always
presents a version at most the current one — strictly below it whenever
the slot is locked. -/
def Inv {S : Type} (s : Sys S) : Prop :=
  (∀ i c, s.att i = .holding c → (∃ t, s.slot.state = .locked i t c) ∧ s.ver = c + 1) ∧
  (∀ i obs c, s.att i = .readDone obs c → c ≤ s.ver ∧ (s.slot.is_locked = true → c < s.ver))

theorem inv_init {S : Type} (d : S) (v : Nat) : Inv (init d v) := by
  constructor
  · intro i c h
    simp [init] at h
  · intro i obs c h
    simp [init] at h

theorem inv_step {S : Type} {s s' : Sys S} (hs : Inv s) (hstep : Step s s') : Inv s' := by
  obtain ⟨hHold, hRead⟩ := hs
  cases hstep with
  | readLocked i hi hl => exact ⟨hHold, hRead⟩
  | readUnlocked i hi hl =>
    refine ⟨?_, ?_⟩
    · intro j c hj
      by_cases hij : j = i
      · subst hij; simp [Function.update] at hj
      · simp [Function.update, hij] at hj
        exact hHold j c hj
    · intro j obs c hj
      by_cases hij : j = i
      · subst hij
        simp [Function.update] at hj
        obtain ⟨_, hc⟩ := hj
        subst hc
        exact ⟨le_refl _, fun hlk => by rw [hlk] at hl; cases hl⟩
      · simp [Function.update, hij] at hj
        exact hRead j obs c hj
  | writeSuccess i obs c t hi hv =>
    refine ⟨?_, ?_⟩
    · intro j c' hj
      by_cases hij : j = i
      · subst hij
        simp [Function.update] at hj
        subst hj
        exact ⟨⟨t, rfl⟩, rfl⟩
      · simp [Function.update, hij] at hj
        -- another holder would contradict the pending write's bound
        obtain ⟨⟨t', hst⟩, hver⟩ := hHold j c' hj
        obtain ⟨hle, hlt⟩ := hRead i obs c hi
        have hlk : s.slot.is_locked = true := by
          simp [Store.is_locked, hst]
        have := hlt hlk
        omega
    · intro j obs' c' hj
      by_cases hij : j = i
      · subst hij; simp [Function.update] at hj
      · simp [Function.update, hij] at hj
        obtain ⟨hle, _⟩ := hRead j obs' c' hj
        constructor
        · simp only []
          omega
        · intro _
          simp only []
          omega
  | writeFail i obs c hi hv =>
    refine ⟨?_, ?_⟩
    · intro j c' hj
      by_cases hij : j = i
      · subst hij; simp [Function.update] at hj
      · simp [Function.update, hij] at hj
        exact hHold j c' hj
    · intro j obs' c' hj
      by_cases hij : j = i
      · subst hij; simp [Function.update] at hj
      · simp [Function.update, hij] at hj
        exact hRead j obs' c' hj
  | unlockSuccess i c hi hv =>
    refine ⟨?_, ?_⟩
    · intro j c' hj
      by_cases hij : j = i
      · subst hij; simp [Function.update] at hj
      · simp [Function.update, hij] at hj
        obtain ⟨⟨t', hst⟩, _⟩ := hHold j c' hj
        obtain ⟨⟨t, hsti⟩, _⟩ := hHold i c hi
        rw [hsti] at hst
        cases hst
        exact absurd rfl hij
    · intro j obs' c' hj
      by_cases hij : j = i
      · subst hij; simp [Function.update] at hj
      · simp [Function.update, hij] at hj
        obtain ⟨hle, _⟩ := hRead j obs' c' hj
        constructor
        · simp only []
          omega
        · intro hlk
          simp [Store.turn_unlock, Store.is_locked] at hlk
  | unlockFail i c hi hv =>
    refine ⟨?_, ?_⟩
    · intro j c' hj
      by_cases hij : j = i
      · subst hij; simp [Function.update] at hj
      · simp [Function.update, hij] at hj
        exact hHold j c' hj
    · intro j obs' c' hj
      by_cases hij : j = i
      · subst hij; simp [Function.update] at hj
      · simp [Function.update, hij] at hj
        exact hRead j obs' c' hj

theorem inv_reachable {S : Type} {d : S} {v : Nat} {s : Sys S}
    (h : Reachable d v s) : Inv s := by
  induction h with
  | refl => exact inv_init d v
  | tail _ hstep ih => exact inv_step ih hstep

/-- A step grants instance `i` a guard only by the `writeSuccess`
transition: `i` was in `readDone` with observed version `c` and the host
version still equalled `c` when the conditional write ran. -/
theorem guard_granted_only_by_cas {S : Type} {s s' : Sys S} (hstep : Step s s')
    (i : Nat) (c : Nat) (h' : s'.att i = .holding c) (h : s.att i ≠ .holding c) :
    ∃ obs, s.att i = .readDone obs c ∧ s.ver = c := by
  cases hstep with
  | readLocked j hj hl => exact absurd h' h
  | readUnlocked j hj hl =>
    by_cases hij : i = j
    · subst hij; simp [Function.update] at h'
    · simp [Function.update, hij] at h'
      exact absurd h' h
  | writeSuccess j obs c' t hj hv =>
    by_cases hij : i = j
    · subst hij
      simp [Function.update] at h'
      subst h'
      exact ⟨obs, hj, hv⟩
    · simp [Function.update, hij] at h'
      exact absurd h' h
  | writeFail j obs c' hj hv =>
    by_cases hij : i = j
    · subst hij; simp [Function.update] at h'
    · simp [Function.update, hij] at h'
      exact absurd h' h
  | unlockSuccess j c' hj hv =>
    by_cases hij : i = j
    · subst hij; simp [Function.update] at h'
    · simp [Function.update, hij] at h'
      exact absurd h' h
  | unlockFail j c' hj hv =>
    by_cases hij : i = j
    · subst hij; simp [Function.update] at h'
    · simp [Function.update, hij] at h'
      exact absurd h' h

end LockSys

namespace Promise

/-- `Response` from `src/runtime/mod.rs`. -/
structure Response where
  code : Nat
  headers : List (String × String)
  body : Option (List Nat)
  trailers : List (String × String)
deriving DecidableEq, Repr

/-- `InnerPromise` from `src/runtime/mod.rs`: the single-resolution cell. -/
inductive InnerPromise where
  | pendingState (w : Option Waker)
  | resolved (r : Response)
  | rejected
  | gone
deriving DecidableEq, Repr

/-- `Promise::resolve`: replace the cell with `Resolved` and wake the
recorded waker, if the cell was `Pending(Some _)`.  Returns (new cell,
woken waker). -/
def resolve (p : InnerPromise) (r : Response) : InnerPromise × Option Waker :=
  match p with
  | .pendingState (some w) => (.resolved r, some w)
  | _ => (.resolved r, none)

/-- `Promise::reject`: replace the cell with `Rejected` (no wake). -/
def reject (_p : InnerPromise) : InnerPromise :=
  .rejected

/-- `<Promise as Future>::poll` (`src/runtime/mod.rs` lines 86-103).
Panics (modelled as `.error msg`) on a `Gone` cell; otherwise returns the
new cell and the poll outcome. -/
def promisePoll (p : InnerPromise) (w : Waker) :
    Except String (InnerPromise × PollOut (Except Unit Response)) :=
  match p with
  | .pendingState none => .ok (.pendingState (some w), .pending)
  | .pendingState (some w0) => .ok (.pendingState (some w0), .pending)
  | .rejected => .ok (.rejected, .ready (.error ()))
  | .gone => .error "polling a resolved promise"
  | .resolved r => .ok (.gone, .ready (.ok r))

/-- `Pendings` (`src/runtime/mod.rs` lines 173-193): the per-instance
table from dispatch token to the promise registered for it.  Promises are
shared cells (`Rc<RefCell<_>>`); the table maps a token to a promise id
into a separate cell heap. -/
def Pendings := Nat → Option Nat

/-- `Pendings::insert`: panics (modelled as `.error msg`) when the token
already has a pending entry. -/
def pendingsInsert (p : Pendings) (token pid : Nat) : Except String Pendings :=
  if (p token).isSome then
    .error "overwriting pending promise for token"
  else
    .ok (Function.update p token (some pid))

/-- `Pendings::remove`: take the entry out of the table. -/
def pendingsRemove (p : Pendings) (token : Nat) : Option Nat × Pendings :=
  (p token, Function.update p token none)

/-- Per-instance runtime state relevant to callback delivery: the promise
cell heap (indexed by promise id) and the pending-token table. -/
structure RtState where
  promises : List InnerPromise
  pendings : Pendings

/-- `RuntimeBox::on_http_call_response` (`src/runtime/mod.rs` lines
146-170).  The host-reported response headers, body, trailers and grpc
code are oracle inputs.  Returns the new state and the waker woken by a
resolution, if any. -/
def on_http_call_response (st : RtState) (token numHeaders : Nat)
    (hostHeaders : List (String × String)) (hostBody : Option (List Nat))
    (hostTrailers : List (String × String)) (grpcCode : Nat) :
    RtState × Option Waker :=
  match pendingsRemove st.pendings token with
  | (none, _) => (st, none)
  | (some pid, pendings') =>
    match st.promises[pid]? with
    | none => ({ st with pendings := pendings' }, none)
    | some cell =>
      if numHeaders = 0 then
        ({ promises := st.promises.set pid (reject cell), pendings := pendings' }, none)
      else
        let resp : Response :=
          { code := grpcCode, headers := hostHeaders, body := hostBody,
            trailers := hostTrailers }
        let (cell', woken) := resolve cell resp
        ({ promises := st.promises.set pid cell', pendings := pendings' }, woken)

end Promise

/-! Association-list model of the host's shared key/value data (one entry
per key, lookups by key equality), shared by the store embeddings. -/

/-- Lookup in an association list (host `get_shared_data` by key). -/
def alookup {V : Type} (k : String) : List (String × V) → Option V
  | [] => none
  | (k', v) :: rest => if k' = k then some v else alookup k rest

/-- Write-or-replace in an association list (host `set_shared_data`). -/
def aset {V : Type} (k : String) (v : V) : List (String × V) → List (String × V)
  | [] => [(k, v)]
  | (k', v') :: rest => if k' = k then (k, v) :: rest else (k', v') :: aset k v rest

/-- Delete from an association list (host `set_shared_data` with `None`). -/
def aerase {V : Type} (k : String) : List (String × V) → List (String × V)
  | [] => []
  | (k', v') :: rest => if k' = k then aerase k rest else (k', v') :: aerase k rest

namespace KV

/-- The order `VecDeque::sort` uses on `(u64, String)` entries:
lexicographic on (expiry, key). -/
def pairLe (a b : Nat × String) : Prop :=
  a.1 < b.1 ∨ (a.1 = b.1 ∧ a.2 ≤ b.2)

instance : DecidableRel pairLe := fun a b => by
  unfold pairLe; infer_instance

instance : IsTotal (Nat × String) pairLe :=
  ⟨fun a b => by
    rcases Nat.lt_trichotomy a.1 b.1 with h | h | h
    · exact Or.inl (Or.inl h)
    · rcases le_total a.2 b.2 with h2 | h2
      · exact Or.inl (Or.inr ⟨h, h2⟩)
      · exact Or.inr (Or.inr ⟨h.symm, h2⟩)
    · exact Or.inr (Or.inl h)⟩

instance : IsTrans (Nat × String) pairLe :=
  ⟨fun a b c hab hbc => by
    rcases hab with h1 | ⟨h1, h1'⟩ <;> rcases hbc with h2 | ⟨h2, h2'⟩
    · exact Or.inl (h1.trans h2)
    · exact Or.inl (h2 ▸ h1)
    · exact Or.inl (h1 ▸ h2)
    · exact Or.inr ⟨h1.trans h2, h1'.trans h2'⟩⟩

/-- `Expirations` from `src/runtime/kv_store.rs`: the ascending
(expiry, key) index, itself stored as one more shared value. -/
structure Expirations where
  list : List (Nat × String)
deriving DecidableEq, Repr

/-- `Expirations::new`. -/
def Expirations.new : Expirations := ⟨[]⟩

/-- `Expirations::push`: append `(now + ttl, key)` then sort the deque. -/
def Expirations.push (ex : Expirations) (key : String) (ttl now : Nat) : Expirations :=
  ⟨(ex.list ++ [(now + ttl, key)]).insertionSort pairLe⟩

/-- Loop of `Expirations::pop_expired`: pop front entries whose expiry has
passed (`expiration ≤ now`), collecting their keys in pop order. -/
def popExpiredGo (now : Nat) : List (Nat × String) → List (Nat × String) × List String
  | [] => ([], [])
  | (e, k) :: rest =>
    if now < e then ((e, k) :: rest, [])
    else
      let (l, ex) := popExpiredGo now rest
      (l, k :: ex)

/-- `Expirations::pop_expired`. -/
def Expirations.pop_expired (ex : Expirations) (now : Nat) : Expirations × List String :=
  (⟨(popExpiredGo now ex.list).1⟩, (popExpiredGo now ex.list).2)

/-- State of one `ExpiringKVStore<V>`: the backing typed entries (the
`store` field's key space) and the single expirations-index entry (the
`expirations` field's key space).  This models the store at the typed
layer: the codec is assumed lawful and the two key prefixes disjoint; the
codec itself is modelled explicitly in `KVBytes` below.  `update` loops on
CAS mismatch indefinitely; in the sequential (interference-free) semantics
embedded here its first conditional write succeeds. -/
structure ExpSt (V : Type) where
  data : List (String × V)
  index : Option Expirations
deriving DecidableEq, Repr

/-- `ExpiringKVStore::get`: single read of the backing entry. -/
def get {V : Type} (s : ExpSt V) (k : String) : Option V :=
  alookup k s.data

/-- `ExpiringKVStore::gc` (lines 229-244): transactionally pop every
expired index entry, then delete the corresponding backing keys. -/
def gc {V : Type} (s : ExpSt V) (now : Nat) : ExpSt V :=
  match s.index with
  | none => { s with index := some Expirations.new }
  | some ex =>
    { data := (ex.pop_expired now).2.foldl (fun d key => aerase key d) s.data,
      index := some (ex.pop_expired now).1 }

/-- `ExpiringKVStore::enqueue_expires` (lines 220-227): push the new
expiration entry into the index, then run garbage collection. -/
def enqueue_expires {V : Type} (s : ExpSt V) (k : String) (ttl now : Nat) : ExpSt V :=
  let ex := ((s.index.getD Expirations.new).push k ttl now)
  gc { s with index := some ex } now

/-- `ExpiringKVStore::put` (lines 204-207): write the backing entry, then
schedule the expiration (which runs GC inline). -/
def put {V : Type} (s : ExpSt V) (k : String) (v : V) (ttl now : Nat) : ExpSt V :=
  enqueue_expires { s with data := aset k v s.data } k ttl now

/-- `ExpiringKVStore::update` (lines 213-218): read-modify-write of the
backing entry only — no expiration scheduling and no GC pass. -/
def update {V : Type} (s : ExpSt V) (k : String) (f : Option V → V) : ExpSt V × V :=
  let nv := f (alookup k s.data)
  ({ s with data := aset k nv s.data }, nv)

/-- `ExpiringKVStore::remove` (lines 209-211): delete the backing entry
(the index entry, if any, is left behind). -/
def remove {V : Type} (s : ExpSt V) (k : String) : ExpSt V :=
  { s with data := aerase k s.data }

end KV

namespace KVBytes

/-- Raw bytes as stored by the host. -/
abbrev Bytes := List Nat

/-- The host's byte-level shared-data map for `LowLevelKVStore`. -/
def BStore := List (String × Bytes)

/-- `Error` from `src/runtime/kv_store.rs`: host status or codec failure
(the boxed codec error payload is erased). -/
inductive KVError where
  | status (st : Status) (description : String)
  | codec
deriving DecidableEq, Repr

/-- `KVStore::get` (lines 101-112): read the prefixed key and decode; a
decode failure is surfaced as `Error::Codec`. -/
def kv_get {V E : Type} (dec : Bytes → Except E V) (bs : BStore) (pre key : String) :
    Except KVError (Option V) :=
  match alookup (pre ++ key) bs with
  | none => .ok none
  | some b =>
    match dec b with
    | .ok v => .ok (some v)
    | .error _ => .error .codec

/-- `KVStore::put` (lines 114-119): encode and write; an encode failure is
surfaced as `Error::Codec`.  Returns the new byte store on success. -/
def kv_put {V E : Type} (enc : V → Except E Bytes) (bs : BStore) (pre key : String) (v : V) :
    Except KVError BStore :=
  match enc v with
  | .error _ => .error .codec
  | .ok b => .ok (aset (pre ++ key) b bs)

/-- `KVStore::update` (lines 127-141): the low-level read-modify-write
runs a closure that decodes the old bytes and encodes the new value with
`.unwrap()` — a codec failure there panics (modelled as `.error msg`).
Only the final re-decode of the written bytes is surfaced as
`Error::Codec`.  The CAS retry loop is embedded in its sequential
(interference-free) semantics, where the first conditional write
succeeds. -/
def kv_update {V E : Type} (enc : V → Except E Bytes) (dec : Bytes → Except E V)
    (bs : BStore) (pre key : String) (f : Option V → V) :
    Except String (BStore × Except KVError V) :=
  let decOld : Except String (Option V) :=
    match alookup (pre ++ key) bs with
    | none => .ok none
    | some b =>
      match dec b with
      | .ok v => .ok (some v)
      | .error _ => .error "called unwrap on an Err value: Codec"
  match decOld with
  | .error msg => .error msg
  | .ok ov =>
    match enc (f ov) with
    | .error _ => .error "called unwrap on an Err value: Codec"
    | .ok nb =>
      let bs' := aset (pre ++ key) nb bs
      match dec nb with
      | .ok v => .ok (bs', .ok v)
      | .error _ => .ok (bs', .error .codec)

end KVBytes

namespace CB

/-- `Inner` from `src/runtime/counter_bucket.rs`: the durable expiring
store of `u64` counters, the in-memory buffer of unflushed deltas, and the
background-task stop flag. -/
structure Inner where
  store : KV.ExpSt Nat
  buffer : List (String × Nat)
  stop : Bool
deriving DecidableEq, Repr

/-- `CounterBucket::inc` (lines 54-58): add to the in-memory buffer entry
(creating it at 0 first), touching nothing else. -/
def inc (s : Inner) (key : String) (value : Nat) : Inner :=
  { s with buffer := aset key ((alookup key s.buffer).getD 0 + value) s.buffer }

/-- `CounterBucket::get` (lines 60-65): durable counter (0 if absent) plus
buffered delta (0 if absent). -/
def get (s : Inner) (key : String) : Nat :=
  (KV.get s.store key).getD 0 + (alookup key s.buffer).getD 0

/-- `CounterBucket::flush` (lines 67-75): drain the buffer, apply each
buffered delta to the durable value by an additive `update`, and return
the number of drained entries. -/
def flush (s : Inner) : Inner × Nat :=
  let buf := s.buffer
  let store' := buf.foldl (fun st kv => (KV.update st kv.1 (fun old => old.getD 0 + kv.2)).1) s.store
  ({ s with store := store', buffer := [] }, buf.length)

/-- One client operation against a `CounterBucket` instance. -/
inductive CBOp where
  | incOp (k : String) (n : Nat)
  | flushOp
deriving DecidableEq, Repr

/-- Run a sequence of `inc`/`flush` operations. -/
def runOps : Inner → List CBOp → Inner
  | s, [] => s
  | s, .incOp k n :: rest => runOps (inc s k n) rest
  | s, .flushOp :: rest => runOps (flush s).1 rest

/-- Total amount added to key `k` by a sequence of operations. -/
def totalIncs (k : String) : List CBOp → Nat
  | [] => 0
  | .incOp k' n :: rest => (if k' = k then n else 0) + totalIncs k rest
  | .flushOp :: rest => totalIncs k rest

end CB

/-! ## Helper lemmas -/

theorem alookup_aset_self {V : Type} (k : String) (v : V) (d : List (String × V)) :
    alookup k (aset k v d) = some v := by
  induction d with
  | nil => simp [aset, alookup]
  | cons hd tl ih =>
    obtain ⟨k', v'⟩ := hd
    by_cases h : k' = k <;> simp [aset, alookup, h, ih]

theorem alookup_aset_ne {V : Type} {k k' : String} (h : k' ≠ k) (v : V)
    (d : List (String × V)) : alookup k (aset k' v d) = alookup k d := by
  induction d with
  | nil => simp [aset, alookup, h]
  | cons hd tl ih =>
    obtain ⟨k0, v0⟩ := hd
    by_cases h0 : k0 = k'
    · subst h0
      simp [aset, alookup, h]
    · by_cases h1 : k0 = k <;> simp [aset, alookup, h0, h1, ih, Ne.symm h]

theorem alookup_aerase_self {V : Type} (k : String) (d : List (String × V)) :
    alookup k (aerase k d) = none := by
  induction d with
  | nil => simp [aerase, alookup]
  | cons hd tl ih =>
    obtain ⟨k0, v0⟩ := hd
    by_cases h0 : k0 = k <;> simp [aerase, alookup, h0, ih]

theorem alookup_aerase_ne {V : Type} {k k' : String} (h : k' ≠ k)
    (d : List (String × V)) : alookup k (aerase k' d) = alookup k d := by
  induction d with
  | nil => simp [aerase, alookup]
  | cons hd tl ih =>
    obtain ⟨k0, v0⟩ := hd
    by_cases h0 : k0 = k'
    · subst h0
      simp [aerase, alookup, h, ih]
    · by_cases h1 : k0 = k <;> simp [aerase, alookup, h0, h1, ih, Ne.symm h]

theorem alookup_aerase_none {V : Type} {k k' : String} {d : List (String × V)}
    (h : alookup k d = none) : alookup k (aerase k' d) = none := by
  by_cases h0 : k' = k
  · rw [h0]
    exact alookup_aerase_self k d
  · rw [alookup_aerase_ne h0]
    exact h

theorem alookup_foldl_aerase_none {V : Type} {k : String} (keys : List String)
    {d : List (String × V)} (h : alookup k d = none) :
    alookup k (keys.foldl (fun d key => aerase key d) d) = none := by
  induction keys generalizing d with
  | nil => exact h
  | cons k0 rest ih => exact ih (alookup_aerase_none h)

theorem alookup_foldl_aerase_of_mem {V : Type} {k : String} {keys : List String}
    (h : k ∈ keys) (d : List (String × V)) :
    alookup k (keys.foldl (fun d key => aerase key d) d) = none := by
  induction keys generalizing d with
  | nil => cases h
  | cons k0 rest ih =>
    rcases List.mem_cons.1 h with h0 | h0
    · subst h0
      exact alookup_foldl_aerase_none rest (alookup_aerase_self k d)
    · exact ih h0 _

theorem alookup_foldl_aerase_of_not_mem {V : Type} {k : String} {keys : List String}
    (h : k ∉ keys) (d : List (String × V)) :
    alookup k (keys.foldl (fun d key => aerase key d) d) = alookup k d := by
  induction keys generalizing d with
  | nil => rfl
  | cons k0 rest ih =>
    have h0 : k0 ≠ k := fun he => h (he ▸ List.mem_cons_self k0 rest)
    have h1 : k ∉ rest := fun hm => h (List.mem_cons_of_mem k0 hm)
    rw [List.foldl_cons, ih h1, alookup_aerase_ne h0]

theorem popExpiredGo_mem_le {now : Nat} :
    ∀ {l : List (Nat × String)} {k : String}, k ∈ (KV.popExpiredGo now l).2 →
      ∃ e, (e, k) ∈ l ∧ e ≤ now
  | [], k, h => by simp [KV.popExpiredGo] at h
  | (e0, k0) :: rest, k, h => by
    by_cases hlt : now < e0
    · simp [KV.popExpiredGo, hlt] at h
    · simp only [KV.popExpiredGo, if_neg hlt] at h
      rcases List.mem_cons.1 h with h0 | h0
      · subst h0
        exact ⟨e0, List.mem_cons_self _ _, Nat.le_of_not_lt hlt⟩
      · obtain ⟨e, hmem, hle⟩ := popExpiredGo_mem_le h0
        exact ⟨e, List.mem_cons_of_mem _ hmem, hle⟩

theorem popExpiredGo_mem_of_sorted {now : Nat} :
    ∀ {l : List (Nat × String)} {e : Nat} {k : String}, l.Sorted KV.pairLe →
      (e, k) ∈ l → e ≤ now → k ∈ (KV.popExpiredGo now l).2
  | [], e, k, _, hmem, _ => by cases hmem
  | (e0, k0) :: rest, e, k, hsort, hmem, hle => by
    by_cases hlt : now < e0
    · exfalso
      rcases List.mem_cons.1 hmem with h0 | h0
      · cases h0
        omega
      · have := (List.sorted_cons.1 hsort).1 _ h0
        rcases this with h1 | ⟨h1, _⟩ <;> omega
    · simp only [KV.popExpiredGo, if_neg hlt]
      rcases List.mem_cons.1 hmem with h0 | h0
      · cases h0
        exact List.mem_cons_self _ _
      · exact List.mem_cons_of_mem _
          (popExpiredGo_mem_of_sorted (List.sorted_cons.1 hsort).2 h0 hle)

open Lock in
theorem pollTryLock_ready_error_status {S : Type} {h : Host S} {q : List Waker}
    {holder now : Nat} {w : Waker} {g : Bool} {h' : Host S} {q' : List Waker}
    {e : LockError}
    (heq : pollTryLock false h q holder now w = .ok (g, h', q', .ready (.error e))) :
    ∃ reason st, e = .status reason st := by
  obtain ⟨raw, cas, getFail, setFail, enqFail⟩ := h
  rcases getFail with _ | gst
  · rcases cas with _ | c
    · simp [pollTryLock, get_and_lock_shared_data] at heq
      exact ⟨_, _, heq.2.2.2.symm⟩
    · rcases raw with _ | store
      · simp [pollTryLock, get_and_lock_shared_data] at heq
        exact ⟨_, _, heq.2.2.2.symm⟩
      · rcases hl : store.is_locked with _ | _
        · rcases setFail with _ | sst
          · simp [pollTryLock, get_and_lock_shared_data, hl] at heq
          · rcases sst <;>
              simp [pollTryLock, get_and_lock_shared_data, hl] at heq <;>
              exact ⟨_, _, heq.2.2.2.symm⟩
        · simp [pollTryLock, get_and_lock_shared_data, hl] at heq
  · simp [pollTryLock, get_and_lock_shared_data] at heq
    exact ⟨_, _, heq.2.2.2.symm⟩

open Promise in
theorem on_http_call_response_no_entry (st : RtState) (token nh : Nat)
    (hh : List (String × String)) (hb : Option (List Nat))
    (ht : List (String × String)) (gcode : Nat)
    (h : st.pendings token = none) :
    on_http_call_response st token nh hh hb ht gcode = (st, none) := by
  simp [on_http_call_response, pendingsRemove, h]

/-! ## Claims -/

/-- C2: polling `TryLock` parks the waker and returns not-ready when the
slot is observed `Locked` or the conditional write loses the CAS race;
neither condition ever reaches the caller as an error, while any other
host status from the read or the write is returned as a terminal
`Ready(Err)`. -/
theorem tryLock_poll_error_discipline {S : Type} (h : Lock.Host S) (q : List Waker)
    (holder now : Nat) (w : Waker) :
    (∀ c store, h.getFail = none → h.cas = some c → h.raw = some store →
      store.is_locked = true →
      Lock.pollTryLock false h q holder now w = .ok (false, h, q ++ [w], .pending)) ∧
    (∀ c store, h.getFail = none → h.cas = some c → h.raw = some store →
      store.is_locked = false → h.setFail = some .casMismatch →
      Lock.pollTryLock false h q holder now w = .ok (false, h, q ++ [w], .pending)) ∧
    (∀ g h' q' e,
      Lock.pollTryLock false h q holder now w = .ok (g, h', q', .ready (.error e)) →
      e ≠ .locked ∧ e ≠ .casMismatch) ∧
    (∀ st, h.getFail = some st →
      Lock.pollTryLock false h q holder now w =
        .ok (true, h, q, .ready (.error (.status "failed to get shared data" st)))) ∧
    (∀ c store st, h.getFail = none → h.cas = some c → h.raw = some store →
      store.is_locked = false → h.setFail = some st → st ≠ .casMismatch →
      Lock.pollTryLock false h q holder now w =
        .ok (true, h, q, .ready (.error (.status "failed to set shared data" st)))) := by
  refine ⟨?_, ?_, ?_, ?_, ?_⟩
  · intro c store hg hc hr hl
    simp [Lock.pollTryLock, Lock.get_and_lock_shared_data, hg, hc, hr, hl]
  · intro c store hg hc hr hl hs
    simp [Lock.pollTryLock, Lock.get_and_lock_shared_data, hg, hc, hr, hl, hs]
  · intro g h' q' e heq
    obtain ⟨reason, st, he⟩ := pollTryLock_ready_error_status heq
    subst he
    simp
  · intro st hg
    simp [Lock.pollTryLock, Lock.get_and_lock_shared_data, hg]
  · intro c store st hg hc hr hl hs hne
    rcases st with _ | _ | _ | _ | n <;>
      simp_all [Lock.pollTryLock, Lock.get_and_lock_shared_data]

/-- Witness for C2 at a concrete locked slot: the poll parks the waker. -/
theorem tryLock_poll_error_discipline_witness :
    (let h : Lock.Host Unit :=
      ⟨some ⟨.locked 1 0 0, ()⟩, some 5, none, none, none⟩
     Lock.pollTryLock false h [] 2 0 9 = .ok (false, h, [9], .pending)) :=
  (tryLock_poll_error_discipline
      (⟨some ⟨.locked 1 0 0, ()⟩, some 5, none, none, none⟩ : Lock.Host Unit)
      [] 2 0 9).1 5 ⟨.locked 1 0 0, ()⟩ rfl rfl rfl rfl

/-- C3: releasing a held guard writes the store back `Unlocked` presenting
version `cas + 1` (the version recorded at acquisition plus one), and a
successful write enqueues the queue notification, whose delivery wakes
every task parked on the lock's queue. -/
theorem guard_release_unlocks_and_notifies {S : Type} (h : Lock.Host S)
    (g : Lock.Guard S) (hld t c : Nat) (hst : g.store.state = .locked hld t c) :
    (Lock.releaseGuard h g).2.2.2.written = some (g.store.turn_unlock, c + 1) ∧
    (g.store.turn_unlock).state = .unlocked ∧
    (h.setFail = none → h.enqFail = none →
      (Lock.releaseGuard h g).1 = .ok () ∧ (Lock.releaseGuard h g).2.2.2.notified = true) ∧
    (∀ (m : Lock.QueueMap) (qid : Nat),
      (Lock.QueueMap.wake_tasks m qid).2 = m qid ∧
      (Lock.QueueMap.wake_tasks m qid).1 qid = []) := by
  refine ⟨?_, rfl, ?_, ?_⟩
  · rcases hsf : h.setFail with _ | sst
    · rcases hef : h.enqFail with _ | est <;>
        simp [Lock.releaseGuard, Lock.set_and_unlock_shared_data, hst, hsf, hef]
    · rcases sst <;>
        simp [Lock.releaseGuard, Lock.set_and_unlock_shared_data, hst, hsf]
  · intro hsf hef
    simp [Lock.releaseGuard, Lock.set_and_unlock_shared_data, hst, hsf, hef]
  · intro m qid
    exact ⟨rfl, by simp [Lock.QueueMap.wake_tasks, Function.update]⟩

/-- Witness for C3 at a concrete held guard. -/
theorem guard_release_unlocks_and_notifies_witness :
    (let g : Lock.Guard Unit := ⟨1, ⟨.locked 1 0 4, ()⟩⟩
     let h : Lock.Host Unit := ⟨some g.store, some 5, none, none, none⟩
     (Lock.releaseGuard h g).2.2.2.written = some (⟨.unlocked, ()⟩, 5)) :=
  (guard_release_unlocks_and_notifies
      (⟨some ⟨.locked 1 0 4, ()⟩, some 5, none, none, none⟩ : Lock.Host Unit)
      ⟨1, ⟨.locked 1 0 4, ()⟩⟩ 1 0 4 rfl).1

/-- C4 (counterexample): the release path checks only whether the guard's
store is `Locked` at all — the holder identity is never compared.  With a
store `Locked` by holder 42 released by a guard whose context is 7 (a
state that is "not Locked by this holder"), the release is not a no-op:
it attempts the unlock write. -/
theorem guard_release_foreign_holder_writes :
    (let g : Lock.Guard Unit := ⟨7, ⟨.locked 42 0 0, ()⟩⟩
     let h : Lock.Host Unit := ⟨some g.store, some 1, none, none, none⟩
     g.store.state.holderOf ≠ some g.ctx ∧
     (Lock.releaseGuard h g).2.2.2.written ≠ none) := by
  decide

/-- C4 (amended): the release is a silent no-op — no write, success —
exactly when the guard's store state is `Unlocked`; whenever it is
`Locked`, by any holder, the unlock write is attempted with the recorded
version plus one. -/
theorem guard_release_noop_iff_unlocked {S : Type} (h : Lock.Host S) (g : Lock.Guard S) :
    (g.store.state = .unlocked →
      Lock.releaseGuard h g = (.ok (), h, g.store, ⟨none, false⟩)) ∧
    (∀ hld t c, g.store.state = .locked hld t c →
      (Lock.releaseGuard h g).2.2.2.written = some (g.store.turn_unlock, c + 1)) := by
  constructor
  · intro hst
    simp [Lock.releaseGuard, Lock.set_and_unlock_shared_data, hst]
  · intro hld t c hst
    rcases hsf : h.setFail with _ | sst
    · rcases hef : h.enqFail with _ | est <;>
        simp [Lock.releaseGuard, Lock.set_and_unlock_shared_data, hst, hsf, hef]
    · rcases sst <;>
        simp [Lock.releaseGuard, Lock.set_and_unlock_shared_data, hst, hsf]

/-- Witness for the amended C4 on a concrete unlocked guard store. -/
theorem guard_release_noop_iff_unlocked_witness :
    (let g : Lock.Guard Unit := ⟨7, ⟨.unlocked, ()⟩⟩
     let h : Lock.Host Unit := ⟨none, some 1, none, none, none⟩
     Lock.releaseGuard h g = (.ok (), h, g.store, ⟨none, false⟩)) :=
  (guard_release_noop_iff_unlocked
      (⟨none, some 1, none, none, none⟩ : Lock.Host Unit) ⟨7, ⟨.unlocked, ()⟩⟩).1 rfl

/-- C10: with no stored value or no version in the slot, polling `TryLock`
returns a terminal `Ready(Err)` with a `Status` error and does not park;
and a successful poll requires the slot to hold an `Unlocked` store with a
version — exactly what `initial()` writes on success. -/
theorem tryLock_requires_initialized_slot {S : Type} (h : Lock.Host S) (q : List Waker)
    (holder now : Nat) (w : Waker) :
    (h.getFail = none → h.raw = none ∨ h.cas = none →
      ∃ reason st,
        Lock.pollTryLock false h q holder now w =
          .ok (true, h, q, .ready (.error (.status reason st)))) ∧
    (∀ g h' q' store,
      Lock.pollTryLock false h q holder now w = .ok (g, h', q', .ready (.ok store)) →
      ∃ st c, h.raw = some st ∧ st.is_locked = false ∧ h.cas = some c) ∧
    (∀ (d : S) (h' : Lock.Host S), Lock.initial h d = (.ok (), h') →
      h'.raw = some (Lock.Store.new d) ∧ (Lock.Store.new d).is_locked = false) := by
  refine ⟨?_, ?_, ?_⟩
  · intro hg hmiss
    rcases hc : h.cas with _ | c
    · exact ⟨"missing CAS value", .badArgument, by
        simp [Lock.pollTryLock, Lock.get_and_lock_shared_data, hg, hc]⟩
    · rcases hr : h.raw with _ | store
      · exact ⟨"shared data is null", .empty, by
          simp [Lock.pollTryLock, Lock.get_and_lock_shared_data, hg, hc, hr]⟩
      · rcases hmiss with hm | hm
        · rw [hr] at hm; cases hm
        · rw [hc] at hm; cases hm
  · intro g h' q' store heq
    rcases hg : h.getFail with _ | gst
    · rcases hc : h.cas with _ | c
      · simp [Lock.pollTryLock, Lock.get_and_lock_shared_data, hg, hc] at heq
      · rcases hr : h.raw with _ | st
        · simp [Lock.pollTryLock, Lock.get_and_lock_shared_data, hg, hc, hr] at heq
        · rcases hl : st.is_locked with _ | _
          · exact ⟨st, c, rfl, hl, rfl⟩
          · simp [Lock.pollTryLock, Lock.get_and_lock_shared_data, hg, hc, hr, hl] at heq
    · simp [Lock.pollTryLock, Lock.get_and_lock_shared_data, hg] at heq
  · intro d h' heq
    rcases hsf : h.setFail with _ | sst
    · simp [Lock.initial, hsf] at heq
      subst heq
      exact ⟨rfl, rfl⟩
    · rcases sst <;> simp [Lock.initial, hsf] at heq

/-- Witness for C10 at a concrete empty slot: the poll errors terminally. -/
theorem tryLock_requires_initialized_slot_witness :
    (let h : Lock.Host Unit := ⟨none, none, none, none, none⟩
     ∃ reason st,
       Lock.pollTryLock false h [] 1 0 9 =
         .ok (true, h, [], .ready (.error (.status reason st)))) :=
  (tryLock_requires_initialized_slot
      (⟨none, none, none, none, none⟩ : Lock.Host Unit) [] 1 0 9).1 rfl (Or.inl rfl)

/-- C1: under every interleaving of concurrent `lock()` attempts on one
slot, at most one live guard exists at any instant, and a guard is only
ever granted by a conditional write of the `Locked` state that presented
the version observed at read time and found it still current. -/
theorem lock_mutual_exclusion {S : Type} (d : S) (v : Nat) (s : LockSys.Sys S)
    (hr : LockSys.Reachable d v s) :
    (∀ i j ci cj, s.att i = .holding ci → s.att j = .holding cj → i = j) ∧
    (∀ (s' : LockSys.Sys S) i c, LockSys.Step s s' → s'.att i = .holding c →
      s.att i ≠ .holding c → ∃ obs, s.att i = .readDone obs c ∧ s.ver = c) := by
  have hinv := LockSys.inv_reachable hr
  constructor
  · intro i j ci cj hi hj
    obtain ⟨⟨t, hsi⟩, _⟩ := hinv.1 i ci hi
    obtain ⟨⟨t', hsj⟩, _⟩ := hinv.1 j cj hj
    rw [hsi] at hsj
    cases hsj
    rfl
  · intro s' i c hstep h' hnot
    exact LockSys.guard_granted_only_by_cas hstep i c h' hnot

/-- Witness for C1 at a concrete reachable state (one instance has read
the unlocked slot and is about to attempt the conditional write). -/
theorem lock_mutual_exclusion_witness :
    LockSys.Reachable () 0
        { slot := Lock.Store.new (), ver := 0,
          att := Function.update (fun _ => .idle) 0
            (.readDone (Lock.Store.new ()) 0) } ∧
    (∀ i j ci cj,
      Function.update (fun _ => LockSys.Attempt.idle) 0
          (.readDone (Lock.Store.new ()) 0) i = .holding ci →
      Function.update (fun _ => LockSys.Attempt.idle) 0
          (.readDone (Lock.Store.new ()) 0) j = .holding cj → i = j) := by
  have hreach : LockSys.Reachable () 0
      { slot := Lock.Store.new (), ver := 0,
        att := Function.update (fun _ => .idle) 0 (.readDone (Lock.Store.new ()) 0) } :=
    Relation.ReflTransGen.refl.tail
      (LockSys.Step.readUnlocked (LockSys.init () 0) 0 rfl rfl)
  exact ⟨hreach, (lock_mutual_exclusion () 0 _ hreach).1⟩

/-- C5: the first callback delivery for a registered token removes the
pending entry, rejects the promise when zero headers are reported and
otherwise resolves it with exactly the reported headers, body and
trailers; a later callback for the same token finds no promise and leaves
the state unchanged. -/
theorem http_call_response_delivery (st : Promise.RtState) (token pid numHeaders : Nat)
    (hh : List (String × String)) (hb : Option (List Nat))
    (ht : List (String × String)) (gcode : Nat) (cell : Promise.InnerPromise)
    (hlook : st.pendings token = some pid)
    (hcell : st.promises[pid]? = some cell) :
    ((Promise.on_http_call_response st token numHeaders hh hb ht gcode).1.pendings token
        = none) ∧
    (numHeaders = 0 →
      (Promise.on_http_call_response st token numHeaders hh hb ht gcode).1.promises[pid]?
        = some .rejected) ∧
    (numHeaders ≠ 0 →
      (Promise.on_http_call_response st token numHeaders hh hb ht gcode).1.promises[pid]?
        = some (.resolved ⟨gcode, hh, hb, ht⟩)) ∧
    (∀ nh2 hh2 hb2 ht2 gc2,
      Promise.on_http_call_response
          (Promise.on_http_call_response st token numHeaders hh hb ht gcode).1
          token nh2 hh2 hb2 ht2 gc2
        = ((Promise.on_http_call_response st token numHeaders hh hb ht gcode).1, none)) := by
  have hpidlt : pid < st.promises.length := by
    rcases List.getElem?_eq_some.1 hcell with ⟨hlt, _⟩
    exact hlt
  refine ⟨?_, ?_, ?_, ?_⟩
  · by_cases hz : numHeaders = 0 <;>
      simp [Promise.on_http_call_response, Promise.pendingsRemove, hlook, hcell, hz,
        Function.update, Promise.resolve]
  · intro hz
    subst hz
    simp [Promise.on_http_call_response, Promise.pendingsRemove, hlook, hcell,
      Promise.reject, List.getElem?_set_eq_of_lt, hpidlt]
  · intro hz
    rcases cell with w | r | _ | _
    · rcases w with _ | w0 <;>
        simp [Promise.on_http_call_response, Promise.pendingsRemove, hlook, hcell, hz,
          Promise.resolve, List.getElem?_set_eq_of_lt, hpidlt]
    all_goals
      simp [Promise.on_http_call_response, Promise.pendingsRemove, hlook, hcell, hz,
        Promise.resolve, List.getElem?_set_eq_of_lt, hpidlt]
  · intro nh2 hh2 hb2 ht2 gc2
    have hnone :
        (Promise.on_http_call_response st token numHeaders hh hb ht gcode).1.pendings token
          = none := by
      by_cases hz : numHeaders = 0 <;>
        simp [Promise.on_http_call_response, Promise.pendingsRemove, hlook, hcell, hz,
          Function.update, Promise.resolve]
    exact on_http_call_response_no_entry _ _ _ _ _ _ _ hnone

/-- Witness for C5: a registered token, callback with one header. -/
theorem http_call_response_delivery_witness :
    (let st : Promise.RtState :=
      ⟨[.pendingState none], Function.update (fun _ => none) 3 (some 0)⟩
     (Promise.on_http_call_response st 3 1 [("a", "b")] none [] 200).1.promises[0]?
        = some (.resolved ⟨200, [("a", "b")], none, []⟩)) :=
  (http_call_response_delivery
      ⟨[.pendingState none], Function.update (fun _ => none) 3 (some 0)⟩
      3 0 1 [("a", "b")] none [] 200 (.pendingState none)
      (by simp [Function.update]) rfl).2.2.1 (by decide)

/-- C7 (counterexample): `Rejected` is a terminal promise state, yet
polling a rejected promise returns `Ready(Err)` (and leaves the cell
`Rejected`, so it can be polled again) instead of aborting — refuting
"any poll after the terminal state has been reached aborts". -/
theorem promise_poll_rejected_no_abort :
    Promise.promisePoll .rejected 0 = .ok (.rejected, .ready (.error ())) := by
  rfl

/-- C7 (amended): in the promise layer, registering a promise for a token
that already has a pending entry aborts, and polling a promise whose
resolved value was already consumed (state `Gone`) aborts; polling a
`Rejected` promise instead returns ready-failure without aborting,
arbitrarily often. -/
theorem promise_abort_conditions (p : Promise.Pendings) (token pid : Nat) (w : Waker)
    (hdup : (p token).isSome = true) :
    (∃ msg, Promise.pendingsInsert p token pid = .error msg) ∧
    (∃ msg, Promise.promisePoll .gone w = .error msg) ∧
    (Promise.promisePoll .rejected w = .ok (.rejected, .ready (.error ()))) := by
  refine ⟨⟨"overwriting pending promise for token", ?_⟩,
    ⟨"polling a resolved promise", rfl⟩, rfl⟩
  simp [Promise.pendingsInsert, hdup]

/-- Witness for the amended C7 at a concrete occupied table. -/
theorem promise_abort_conditions_witness :
    ((Function.update (fun _ => none) 3 (some 0) : Promise.Pendings) 3).isSome = true ∧
    (∃ msg,
      Promise.pendingsInsert (Function.update (fun _ => none) 3 (some 0)) 3 1
        = .error msg) :=
  ⟨by simp [Function.update],
    (promise_abort_conditions (Function.update (fun _ => none) 3 (some 0)) 3 1 0
      (by simp [Function.update])).1⟩

theorem get_gc_of_index {V : Type} (s : KV.ExpSt V) (now : Nat) (k : String)
    (ex : KV.Expirations) (hidx : s.index = some ex) :
    KV.get (KV.gc s now) k =
      if k ∈ (ex.pop_expired now).2 then none else KV.get s k := by
  simp only [KV.gc, hidx, KV.get]
  by_cases hm : k ∈ (ex.pop_expired now).2
  · simp [hm, alookup_foldl_aerase_of_mem hm]
  · simp [hm, alookup_foldl_aerase_of_not_mem hm]

theorem put_eq_gc {V : Type} (s : KV.ExpSt V) (k : String) (v : V) (ttl now : Nat) :
    KV.put s k v ttl now =
      KV.gc { data := aset k v s.data,
              index := some ((s.index.getD KV.Expirations.new).push k ttl now) } now := rfl

/-- C6 (counterexample): with `ttl = 0`, the GC pass running inline inside
`put` itself already considers the fresh entry expired and deletes the
just-written key, so `get` immediately after `put` returns none — refuting
"returns the stored value immediately after put for every key and ttl". -/
theorem expiring_put_zero_ttl_vanishes :
    KV.get (KV.put (⟨[], none⟩ : KV.ExpSt Nat) "k" 5 0 10) "k" = none := by
  rfl

/-- C6 (amended): `get(k)` returns the stored value immediately after
`put(k, v, ttl)` provided the ttl is at least one second and the
expirations index holds no already-expired entry for `k`; and once an
index entry for `k` has expired, the GC pass run inline by any subsequent
`put` (or `enqueue_expires`) — `update` runs no GC — deletes the backing
key, after which `get(k)` returns none. -/
theorem expiring_kv_ttl_behavior {V : Type} (s : KV.ExpSt V) (k : String) (v : V)
    (ttl now : Nat) (h1 : 1 ≤ ttl)
    (hfresh : ∀ ex, s.index = some ex → ∀ e, (e, k) ∈ ex.list → now < e) :
    KV.get (KV.put s k v ttl now) k = some v ∧
    (∀ (s2 : KV.ExpSt V) (ex2 : KV.Expirations) (e : Nat) (k2 : String) (v2 : V)
        (ttl2 now2 : Nat), s2.index = some ex2 → (e, k) ∈ ex2.list → e ≤ now2 →
      KV.get (KV.put s2 k2 v2 ttl2 now2) k = none) := by
  constructor
  · rw [put_eq_gc,
      get_gc_of_index _ _ _ ((s.index.getD KV.Expirations.new).push k ttl now) rfl]
    have hnotmem :
        k ∉ (((s.index.getD KV.Expirations.new).push k ttl now).pop_expired now).2 := by
      intro hmem
      obtain ⟨e, hin, hle⟩ :=
        popExpiredGo_mem_le (l := ((s.index.getD KV.Expirations.new).push k ttl now).list)
          (by simpa [KV.Expirations.pop_expired] using hmem)
      have hin' : (e, k) ∈ (s.index.getD KV.Expirations.new).list ++ [(now + ttl, k)] := by
        have hperm := List.perm_insertionSort KV.pairLe
          ((s.index.getD KV.Expirations.new).list ++ [(now + ttl, k)])
        exact hperm.mem_iff.1 (by simpa [KV.Expirations.push] using hin)
      rcases List.mem_append.1 hin' with hbase | hnew
      · rcases hidx : s.index with _ | ex
        · rw [hidx] at hbase
          simp [KV.Expirations.new] at hbase
        · rw [hidx] at hbase
          have := hfresh ex hidx e (by simpa using hbase)
          omega
      · simp at hnew
        omega
    simp [hnotmem, KV.get, alookup_aset_self]
  · intro s2 ex2 e k2 v2 ttl2 now2 hidx hin hle
    rw [put_eq_gc,
      get_gc_of_index _ _ _ ((s2.index.getD KV.Expirations.new).push k2 ttl2 now2) rfl]
    have hsorted :
        ((s2.index.getD KV.Expirations.new).push k2 ttl2 now2).list.Sorted KV.pairLe := by
      simp only [KV.Expirations.push]
      exact List.sorted_insertionSort KV.pairLe _
    have hmem_list :
        (e, k) ∈ ((s2.index.getD KV.Expirations.new).push k2 ttl2 now2).list := by
      simp only [KV.Expirations.push, hidx, Option.getD_some]
      exact (List.perm_insertionSort KV.pairLe _).mem_iff.2
        (List.mem_append.2 (Or.inl hin))
    have hmem :
        k ∈ ((((s2.index.getD KV.Expirations.new).push k2 ttl2 now2)).pop_expired now2).2 := by
      simpa [KV.Expirations.pop_expired] using
        popExpiredGo_mem_of_sorted hsorted hmem_list hle
    simp [hmem]

/-- Witness for the amended C6: a fresh store, `ttl = 1`. -/
theorem expiring_kv_ttl_behavior_witness :
    1 ≤ 1 ∧ KV.get (KV.put (⟨[], none⟩ : KV.ExpSt Nat) "k" 5 1 10) "k" = some 5 :=
  ⟨Nat.le_refl 1,
    (expiring_kv_ttl_behavior (⟨[], none⟩ : KV.ExpSt Nat) "k" 5 1 10 (Nat.le_refl 1)
      (fun _ex hx => nomatch hx)).1⟩

/-- Test codec used to exercise the byte-level store: a number `n` encodes
to the singleton byte list `[n]`; anything else fails to decode. -/
def natEnc (n : Nat) : Except Unit KVBytes.Bytes := .ok [n]

/-- Decoder half of the test codec. -/
def natDec : KVBytes.Bytes → Except Unit Nat
  | [n] => .ok n
  | _ => .error ()

/-- C8 (counterexample): a decode failure inside `update`'s
read-modify-write closure aborts (the closure `.unwrap()`s the codec
result) instead of surfacing a typed `Codec` error: updating a key whose
stored bytes do not decode panics. -/
theorem kv_update_codec_aborts :
    KVBytes.kv_update natEnc natDec [("pk", [])] "p" "k" (fun o => o.getD 0)
      = .error "called unwrap on an Err value: Codec" := by
  rfl

/-- C8 (amended): codec failures are surfaced as typed `Codec` errors by
`get` (decode) and `put` (encode), and by `update`'s final re-decode of
the written bytes; but a decode or encode failure inside `update`'s
read-modify-write closure aborts instead of returning a typed error. -/
theorem kv_codec_error_surfacing {V E : Type} (enc : V → Except E KVBytes.Bytes)
    (dec : KVBytes.Bytes → Except E V) (bs : KVBytes.BStore) (pre key : String) :
    (∀ b e, alookup (pre ++ key) bs = some b → dec b = .error e →
      KVBytes.kv_get dec bs pre key = .error .codec) ∧
    (∀ v e, enc v = .error e → KVBytes.kv_put enc bs pre key v = .error .codec) ∧
    (∀ b e (f : Option V → V), alookup (pre ++ key) bs = some b → dec b = .error e →
      KVBytes.kv_update enc dec bs pre key f
        = .error "called unwrap on an Err value: Codec") ∧
    (∀ (f : Option V → V) e, alookup (pre ++ key) bs = none →
      enc (f none) = .error e →
      KVBytes.kv_update enc dec bs pre key f
        = .error "called unwrap on an Err value: Codec") ∧
    (∀ (f : Option V → V) nb e, alookup (pre ++ key) bs = none →
      enc (f none) = .ok nb → dec nb = .error e →
      KVBytes.kv_update enc dec bs pre key f
        = .ok (aset (pre ++ key) nb bs, .error .codec)) := by
  refine ⟨?_, ?_, ?_, ?_, ?_⟩
  · intro b e hb hd
    simp [KVBytes.kv_get, hb, hd]
  · intro v e he
    simp [KVBytes.kv_put, he]
  · intro b e f hb hd
    simp [KVBytes.kv_update, hb, hd]
  · intro f e hb he
    simp [KVBytes.kv_update, hb, he]
  · intro f nb e hb he hd
    simp [KVBytes.kv_update, hb, he, hd]

/-- Witness for the amended C8 with the test codec on undecodable bytes. -/
theorem kv_codec_error_surfacing_witness :
    natDec [] = .error () ∧
    KVBytes.kv_get natDec [("pk", [])] "p" "k" = .error .codec :=
  ⟨rfl, (kv_codec_error_surfacing natEnc natDec [("pk", [])] "p" "k").1 [] () rfl rfl⟩

/-- Unflushed buffered total for a key: the sum of all deltas recorded for
it in the in-memory buffer. -/
def CB.bufSum (k : String) : List (String × Nat) → Nat
  | [] => 0
  | (k', n) :: rest => (if k' = k then n else 0) + CB.bufSum k rest

theorem mem_aset_keys {V : Type} {k' k : String} (v : V) (d : List (String × V)) :
    k' ∈ (aset k v d).map Prod.fst ↔ k' = k ∨ k' ∈ d.map Prod.fst := by
  induction d with
  | nil => simp [aset]
  | cons hd tl ih =>
    obtain ⟨k0, v0⟩ := hd
    by_cases h0 : k0 = k
    · subst h0
      simp [aset]
      try tauto
    · simp [aset, h0, ih]
      try tauto

theorem nodup_aset_keys {V : Type} (k : String) (v : V) {d : List (String × V)}
    (h : (d.map Prod.fst).Nodup) : ((aset k v d).map Prod.fst).Nodup := by
  induction d with
  | nil => simp [aset]
  | cons hd tl ih =>
    obtain ⟨k0, v0⟩ := hd
    simp only [List.map_cons, List.nodup_cons] at h
    obtain ⟨hk0, htl⟩ := h
    by_cases h0 : k0 = k
    · subst h0
      simp [aset, List.nodup_cons, hk0, htl]
    · simp only [aset, if_neg h0, List.map_cons, List.nodup_cons]
      refine ⟨?_, ih htl⟩
      intro hmem
      rcases (mem_aset_keys v tl).1 hmem with he | hm
      · exact h0 he
      · exact hk0 hm

theorem bufSum_eq_zero_of_not_mem {k : String} {buf : List (String × Nat)}
    (h : k ∉ buf.map Prod.fst) : CB.bufSum k buf = 0 := by
  induction buf with
  | nil => rfl
  | cons hd tl ih =>
    obtain ⟨k0, n0⟩ := hd
    simp only [List.map_cons, List.mem_cons, not_or] at h
    obtain ⟨h1, h2⟩ := h
    simp [CB.bufSum, Ne.symm h1, ih h2]

theorem alookup_eq_bufSum {k : String} {buf : List (String × Nat)}
    (h : (buf.map Prod.fst).Nodup) : (alookup k buf).getD 0 = CB.bufSum k buf := by
  induction buf with
  | nil => rfl
  | cons hd tl ih =>
    obtain ⟨k0, n0⟩ := hd
    simp only [List.map_cons, List.nodup_cons] at h
    obtain ⟨hk0, htl⟩ := h
    by_cases h0 : k0 = k
    · subst h0
      simp [alookup, CB.bufSum, bufSum_eq_zero_of_not_mem hk0]
    · simp [alookup, CB.bufSum, h0, ih htl]

theorem flush_fold_durable (buf : List (String × Nat)) :
    ∀ (st : KV.ExpSt Nat) (k : String),
      (KV.get (buf.foldl
          (fun st kv => (KV.update st kv.1 (fun old => old.getD 0 + kv.2)).1) st) k).getD 0
        = (KV.get st k).getD 0 + CB.bufSum k buf := by
  induction buf with
  | nil =>
    intro st k
    simp [CB.bufSum]
  | cons hd tl ih =>
    intro st k
    obtain ⟨k1, v1⟩ := hd
    rw [List.foldl_cons, ih]
    have hstep : (KV.get (KV.update st k1 (fun old => old.getD 0 + v1)).1 k).getD 0
        = (KV.get st k).getD 0 + (if k1 = k then v1 else 0) := by
      by_cases h1 : k1 = k
      · subst h1
        simp [KV.update, KV.get, alookup_aset_self]
      · simp [KV.update, KV.get, alookup_aset_ne h1, h1]
    rw [hstep]
    show _ = _ + CB.bufSum k ((k1, v1) :: tl)
    rw [CB.bufSum, Nat.add_assoc]

theorem runOps_get (k : String) : ∀ (ops : List CB.CBOp) (s : CB.Inner),
    (s.buffer.map Prod.fst).Nodup →
    CB.get (CB.runOps s ops) k = CB.get s k + CB.totalIncs k ops
  | [], s, _ => by simp [CB.runOps, CB.totalIncs]
  | .incOp k' n :: rest, s, hnd => by
    rw [CB.runOps, runOps_get k rest (CB.inc s k' n) (nodup_aset_keys k' _ hnd)]
    have hget : CB.get (CB.inc s k' n) k = CB.get s k + (if k' = k then n else 0) := by
      by_cases h0 : k' = k
      · subst h0
        simp [CB.inc, CB.get, alookup_aset_self]
        omega
      · simp [CB.inc, CB.get, alookup_aset_ne h0, h0]
    rw [hget, CB.totalIncs, Nat.add_assoc]
  | .flushOp :: rest, s, hnd => by
    rw [CB.runOps, runOps_get k rest (CB.flush s).1 (by simp [CB.flush])]
    have hget : CB.get (CB.flush s).1 k = CB.get s k := by
      show (KV.get (CB.flush s).1.store k).getD 0 + (alookup k (CB.flush s).1.buffer).getD 0
        = CB.get s k
      have hbuf : (CB.flush s).1.buffer = [] := rfl
      rw [hbuf]
      show (KV.get (CB.flush s).1.store k).getD 0 + 0 = CB.get s k
      rw [Nat.add_zero]
      show (KV.get (s.buffer.foldl
          (fun st kv => (KV.update st kv.1 (fun old => old.getD 0 + kv.2)).1) s.store) k).getD 0
        = CB.get s k
      rw [flush_fold_durable, ← alookup_eq_bufSum hnd]
      rfl
    rw [hget, CB.totalIncs]

/-- C9: the observed count is always the durable count plus the buffered
deltas; `inc` mutates only the buffer; `flush` drains the whole buffer,
adds every buffered delta to the durable value, and returns the number of
drained keys (zero when the buffer is empty); hence over any sequence of
`inc`/`flush` operations the observed count equals the initial count plus
every increment. -/
theorem counter_bucket_invariant (s0 : CB.Inner) (k : String) (ops : List CB.CBOp)
    (hnd : (s0.buffer.map Prod.fst).Nodup) :
    (∀ s : CB.Inner,
      CB.get s k = (KV.get s.store k).getD 0 + (alookup k s.buffer).getD 0) ∧
    (∀ (s : CB.Inner) (n : Nat),
      (CB.inc s k n).store = s.store ∧ (CB.inc s k n).stop = s.stop ∧
      (alookup k (CB.inc s k n).buffer).getD 0 = (alookup k s.buffer).getD 0 + n) ∧
    (∀ s : CB.Inner, (CB.flush s).1.buffer = [] ∧ (CB.flush s).2 = s.buffer.length ∧
      (s.buffer = [] → (CB.flush s).2 = 0)) ∧
    (∀ s : CB.Inner, (KV.get (CB.flush s).1.store k).getD 0
        = (KV.get s.store k).getD 0 + CB.bufSum k s.buffer) ∧
    CB.get (CB.runOps s0 ops) k = CB.get s0 k + CB.totalIncs k ops := by
  refine ⟨fun s => rfl, ?_, ?_, ?_, runOps_get k ops s0 hnd⟩
  · intro s n
    refine ⟨rfl, rfl, ?_⟩
    simp [CB.inc, alookup_aset_self]
  · intro s
    refine ⟨rfl, rfl, ?_⟩
    intro hbuf
    simp [CB.flush, hbuf]
  · intro s
    exact flush_fold_durable s.buffer s.store k

/-- Witness for C9 on a concrete operation sequence. -/
theorem counter_bucket_invariant_witness :
    (let s0 : CB.Inner := ⟨⟨[], none⟩, [], false⟩
     let ops : List CB.CBOp := [.incOp "k" 2, .flushOp, .incOp "k" 3]
     (s0.buffer.map Prod.fst).Nodup ∧
     CB.get (CB.runOps s0 ops) "k" = CB.get s0 "k" + CB.totalIncs "k" ops) :=
  ⟨List.nodup_nil,
    (counter_bucket_invariant ⟨⟨[], none⟩, [], false⟩ "k"
      [.incOp "k" 2, .flushOp, .incOp "k" 3] List.nodup_nil).2.2.2.2⟩

end PWRuntime
